import Mathlib

/-!
Shallow embedding of the vimtermute prompt-composition and streaming-session
engine (src/python/vimtermute.py).  Pure Python string/list manipulation is
translated to Lean functions; the external collaborators (vim buffers, the
filesystem, the git executable, the network stream) are modelled by an
explicit `Env` record of oracles; Python exceptions become `Except`/`Option`
results, and the mutable module-level `state` becomes an explicit `State`
value threaded through the operations.
-/

namespace Vimtermute

/-- Embedding of Python `s.split(c)` for a one-character separator,
on the character list of the string.  `"".split(c) = [""]`. -/
def splitOnChar (c : Char) : List Char → List (List Char)
  | [] => [[]]
  | x :: xs =>
    let groups := splitOnChar c xs
    if x = c then [] :: groups
    else
      match groups with
      | [] => [[x]]
      | g :: gs => (x :: g) :: gs

/-- Embedding of Python `s.split("\n")`. -/
def splitLines (s : String) : List String :=
  (splitOnChar '\n' s.data).map String.mk

/-- Embedding of Python `s.startswith(p)`: `p` is a prefix of the character
sequence of `s`. -/
def startsWith (s p : String) : Bool :=
  p.data.isPrefixOf s.data

/-- Characters stripped by Python `str.strip()` with no argument: whitespace
(`Char.isWhitespace` covers the ASCII whitespace the program encounters). -/
def trimChars (cs : List Char) : List Char :=
  ((cs.dropWhile Char.isWhitespace).reverse.dropWhile
    Char.isWhitespace).reverse

/-- Embedding of Python `s.strip()`. -/
def strip (s : String) : String :=
  String.mk (trimChars s.data)

/-- Python list mutation `l[-1] = f(l[-1])` (used on `state.history[-1]` and
`responses[-1]`).  On the empty list Python would raise `IndexError`; that
state is unreachable in the program (guarded by non-empty history while a
request is in flight), so it is modelled as the identity. -/
def modifyLast {α : Type} (f : α → α) (l : List α) : List α :=
  match l.getLast? with
  | none => []
  | some x => l.dropLast ++ [f x]

/-- Lexicographic insertion used to embed Python `sorted` on strings. -/
def insertSorted (x : String) : List String → List String
  | [] => [x]
  | y :: ys => if x ≤ y then x :: y :: ys else y :: insertSorted x ys

/-- Embedding of Python `sorted(files)` (ascending lexicographic sort). -/
def sortStrings (l : List String) : List String :=
  l.foldr insertSorted []

/-- Python `"-" * n`. -/
def dashes (n : Nat) : String :=
  String.mk (List.replicate n '-')

/-- The `CODE_SYSTEM_PROMPT` constant of the source (a triple-quoted Python
string, hence the leading and trailing newline). -/
def CODE_SYSTEM_PROMPT : String :=
  "\nYou are an AI programming assistant.\n\nWhen asked to generate code, output only those parts of the code that are\nrelevant to the user's request and need to be modified. DO NOT output\nentire files unless asked to do so.\n\nDO NOT output diff patches unless asked to do so. Instead, output\nthe code as it should be after the change.\n"

/-- The `COMMIT_PROMPT` constant of the source (the typo `imperatiive` is in
the source). -/
def COMMIT_PROMPT : String :=
  "\nWrite commit message for the change following the Conventional Commits format.\nTell me what the change does, not how it does it.\nExplain motivation for the change and how it addresses the issue.\nUse imperatiive mood.\n"

/-- `CODE_SYSTEM_PROMPT.strip().split("\n")` as evaluated in `compose_prompt`. -/
def code_system_lines : List String :=
  splitLines (strip CODE_SYSTEM_PROMPT)

/-- `COMMIT_PROMPT.strip().split("\n")` as evaluated in `compose_prompt`. -/
def commit_prompt_lines : List String :=
  splitLines (strip COMMIT_PROMPT)

/-- One history entry: the dict
`{"prompt_raw": ..., "prompt": ..., "responses": [...]}` appended by
`ask_finish`.  Note the source stores no system instruction in the entry. -/
structure Entry where
  prompt_raw : String
  prompt : String
  responses : List String
deriving Repr, DecidableEq

/-- The module-level `state = SimpleNamespace(history=[], thinking=False)`. -/
structure State where
  history : List Entry
  thinking : Bool
deriving Repr, DecidableEq

/-- Oracles for the external collaborators used by the context providers:
visible non-chat vim buffers (`visible_buffers()`, each a list of lines),
`glob.glob`, `os.path.isfile`, file reads (`none` = raise), and the three
git commands (`none` = `CalledProcessError`; `some out` = captured stdout). -/
structure Env where
  buffers : List (List String)
  glob : String → List String
  isfile : String → Bool
  readFile : String → Option String
  gitDiff : Option String
  gitStaged : Option String
  gitLsFiles : String → Option String

/-- The arguments `(system, prompt)` handed to
`threading.Thread(target=response_thread, args=(system, prompt))`. -/
structure Dispatch where
  system : Option String
  prompt : String
deriving Repr, DecidableEq

/-- Result of one state-mutating operation: `err` is the message of a raised
exception (Python exceptions propagate out of the handler, leaving whatever
state had been written so far — `state` is the state at return or raise
time), and `dispatched` records a started `response_thread`, if any. -/
structure OpResult where
  err : Option String
  state : State
  dispatched : Option Dispatch
deriving Repr, DecidableEq

/-- Embedding of `attach_buffer` (the `@buffer` provider). -/
def attach_buffer (env : Env) (preamble : List String) :
    Except String (List String) :=
  match env.buffers with
  | [] => .error "Using @buffer, but no buffers open"
  | [b] => .ok (preamble ++
      ["Here is the content of the current buffer:", "", "```"] ++ b ++
      ["```", ""])
  | _ => .error "Using @buffer, but multiple buffers open"

/-- The `for file in sorted(files)` loop body of `attach_files`: read each
file (read failure aborts the whole composition) and append one fenced
block per file to the preamble. -/
def read_blocks (env : Env) : List String → List String →
    Except String (List String)
  | [], preamble => .ok preamble
  | file :: rest, preamble =>
    match env.readFile file with
    | none => .error ("Failed to read file `" ++ file ++ "`")
    | some content =>
      read_blocks env rest (preamble ++
        ["Here is the content of the file `" ++ file ++ "`:", "", "```",
         content, "```", ""])

/-- Embedding of `attach_files` (the `@files` provider).  The pattern is
`re.match(r"@files\s*(.*)", line).group(1).strip()`, i.e. everything after
`@files` with surrounding whitespace stripped. -/
def attach_files (env : Env) (preamble : List String) (line : String) :
    Except String (List String) :=
  let pattern0 := strip (String.mk (line.data.drop 6))
  let pattern := if pattern0 = "" then "**/*" else pattern0
  let files := (env.glob pattern).filter env.isfile
  if files.isEmpty then
    .error ("No files found matching pattern `" ++ pattern ++ "`")
  else
    read_blocks env (sortStrings files) preamble

/-- Test for `re.match(r"@git\s+SUB", line)`: after `@git` there must be at
least one whitespace character, and after the maximal whitespace run the
rest must start with `sub` (whitespace cannot begin `sub`, so the greedy
`\s+` is exact). -/
def gitMatches (sub : String) (line : String) : Bool :=
  let rest := line.data.drop 4
  let ws := rest.takeWhile Char.isWhitespace
  ws.length > 0 && sub.data.isPrefixOf (rest.dropWhile Char.isWhitespace)

/-- `re.match(r"@git\s+files\s*(.*)", line).group(1).strip()`. -/
def gitFilesPattern (line : String) : String :=
  String.mk
    (trimChars (((line.data.drop 4).dropWhile Char.isWhitespace).drop 5))

/-- The `for file in sorted(files)` loop of the `@git files` branch: skip
non-regular paths, read the rest, append one block per file. -/
def git_read_blocks (env : Env) : List String → List String →
    Except String (List String)
  | [], preamble => .ok preamble
  | file :: rest, preamble =>
    if !(env.isfile file) then git_read_blocks env rest preamble
    else
      match env.readFile file with
      | none => .error ("Failed to read file `" ++ file ++ "`")
      | some content =>
        git_read_blocks env rest (preamble ++
          ["Here is the content of the file `" ++ file ++ "`:", "", "```",
           content, "```", ""])

/-- Embedding of `attach_git` (the `@git diff` / `@git staged` /
`@git files` provider). -/
def attach_git (env : Env) (preamble : List String) (line : String) :
    Except String (List String) :=
  if gitMatches "diff" line then
    match env.gitDiff with
    | none => .error "Git command failed"
    | some out =>
      let diff := strip out
      if diff ≠ "" then
        .ok (preamble ++ ["Here are the current changes:", "", "```diff",
          diff, "```", ""])
      else .error "Using `@git diff`, but no changes found"
  else if gitMatches "staged" line then
    match env.gitStaged with
    | none => .error "Git command failed"
    | some out =>
      let diff := strip out
      if diff ≠ "" then
        .ok (preamble ++ ["Here are the changes staged for commit:", "",
          "```diff", diff, "```", ""])
      else .error "Using `@git staged`, but no changes staged"
  else if gitMatches "files" line then
    let pattern0 := gitFilesPattern line
    let pattern := if pattern0 = "" then "**/*" else pattern0
    match env.gitLsFiles pattern with
    | none => .error "Git command failed"
    | some out =>
      let files := splitLines (strip out)
      if files.isEmpty then
        .error ("No tracked files found matching pattern `" ++ pattern ++ "`")
      else
        git_read_blocks env (sortStrings files) preamble
  else
    .error ("Invalid @git directive: " ++ line)

/-- The line loop of `compose_prompt`, threading the three accumulators
`system`, `prompt` and `preamble`.  Directive recognition mirrors the
source exactly: `line.startswith("@buffer")`, then
`re.match(r"@files\s*.*", line)` (equivalent to `line.startswith("@files")`
since `\s*` and `.*` both match the empty string), then likewise
`re.match(r"@git\s*.*", line)` ≡ `line.startswith("@git")`. -/
def composeLines (env : Env) :
    List String → List String → List String → List String →
    Except String (List String × List String × List String)
  | [], system, prompt, preamble => .ok (system, prompt, preamble)
  | line :: rest, system, prompt, preamble =>
    if startsWith line "@" then
      if startsWith line "@buffer" then
        match attach_buffer env preamble with
        | .error e => .error e
        | .ok preamble2 => composeLines env rest system prompt preamble2
      else if startsWith line "@files" then
        match attach_files env preamble line with
        | .error e => .error e
        | .ok preamble2 => composeLines env rest system prompt preamble2
      else if startsWith line "@git" then
        match attach_git env preamble line with
        | .error e => .error e
        | .ok preamble2 => composeLines env rest system prompt preamble2
      else
        .error ("Invalid @ directive: " ++ line)
    else if startsWith line "/" then
      if startsWith line "/code" then
        composeLines env rest (system ++ code_system_lines) prompt preamble
      else if startsWith line "/commit" then
        composeLines env rest
          (system ++ ["You are an AI programming assistant."])
          (prompt ++ commit_prompt_lines) preamble
      else
        .error ("Invalid / directive: " ++ line)
    else
      composeLines env rest system (prompt ++ [line]) preamble

/-- Embedding of `compose_prompt`: returns
`("\n".join(preamble + prompt), "\n".join(system) if system else None)`. -/
def compose_prompt (env : Env) (raw_prompt : String) :
    Except String (String × Option String) :=
  match composeLines env (splitLines raw_prompt) [] [] [] with
  | .error e => .error e
  | .ok (system, prompt, preamble) =>
    .ok (String.intercalate "\n" (preamble ++ prompt),
         if system.isEmpty then none else
           some (String.intercalate "\n" system))

/-- One entry's contribution to `render_history`: the "#### User" block with
the raw prompt lines, then either one "#### Vimtermute" block (exactly one
response variant) or one numbered block per variant. -/
def render_entry (e : Entry) : List String :=
  ["#### User " ++ dashes 65, ""] ++ splitLines e.prompt_raw ++ [""] ++
  (match e.responses with
   | [r] =>
     ["#### Vimtermute " ++ dashes 59, ""] ++ splitLines r ++ [""]
   | rs =>
     (rs.enum.map (fun ir =>
       ["#### Vimtermute " ++ toString (ir.1 + 1) ++ "/" ++
          toString rs.length ++ " " ++ dashes 53, ""] ++
       splitLines ir.2 ++ [""])).flatten)

/-- Embedding of `render_history`: the `lines.extend(...)` loop. -/
def render_history (history : List Entry) : List String :=
  history.foldl (fun lines e => lines ++ render_entry e) []

/-- Embedding of the `update_response` callback of `response_thread`:
`state.history[-1]["responses"][-1] += part` (the chat-buffer repaint it
also performs is pure UI and carries no session state). -/
def update_response (s : State) (part : String) : State :=
  { s with
    history := modifyLast
      (fun e => { e with responses := modifyLast (· ++ part) e.responses })
      s.history }

/-- Embedding of the `finalize` callback: `state.thinking = False` (plus a
pure-UI repaint). -/
def finalize (s : State) : State :=
  { s with thinking := false }

/-- The observable session effect of `response_thread`'s streaming loop with
its `try/finally`: the fragments actually delivered by the stream before it
closed or raised (`delivered` — a prefix of the full stream when a network
error interrupts it) are applied in FIFO order via the `async_call` queue,
and `finalize` always runs afterwards. -/
def response_thread_run (s : State) (delivered : List String) : State :=
  finalize (delivered.foldl update_response s)

/-- The latest response variant of the last history entry, if any. -/
def latestResponse (s : State) : Option String :=
  s.history.getLast? >>= fun e => e.responses.getLast?

/-- Embedding of `ask_finish` given the lines of the ask buffer
(`vim.current.buffer[:]`).  Mirrors the source order: strip and compose
first (a composition exception propagates with the session untouched), then
the silent empty-prompt return, then the history append, `thinking = True`
and the thread dispatch.  Window manipulation is pure UI and omitted. -/
def ask_finish (env : Env) (s : State) (bufLines : List String) : OpResult :=
  let prompt_raw := strip (String.intercalate "\n" bufLines)
  match compose_prompt env prompt_raw with
  | .error e => ⟨some e, s, none⟩
  | .ok (prompt, system) =>
    if prompt_raw = "" then ⟨none, s, none⟩
    else
      ⟨none,
       ⟨s.history ++ [⟨prompt_raw, prompt, [""]⟩], true⟩,
       some ⟨system, prompt⟩⟩

/-- Embedding of `regenerate_last`: guarded by `thinking` and empty history
(both echo/return without mutation), then re-runs `compose_prompt` on the
last entry's `prompt_raw` (an exception propagates with the session
untouched), then appends a new empty response variant, sets
`thinking = True` and dispatches. -/
def regenerate_last (env : Env) (s : State) : OpResult :=
  if s.thinking then ⟨none, s, none⟩
  else
    match s.history.getLast? with
    | none => ⟨none, s, none⟩
    | some entry =>
      match compose_prompt env entry.prompt_raw with
      | .error e => ⟨some e, s, none⟩
      | .ok (prompt, system) =>
        ⟨none,
         ⟨modifyLast (fun e => { e with responses := e.responses ++ [""] })
            s.history,
          true⟩,
         some ⟨system, prompt⟩⟩

/-- Embedding of `clear`.  `logWrite` models the `open`/`write` of
`.vimtermute.log` (only attempted when the history is non-empty):
`.error e` is a raised I/O exception, which propagates out of `clear`
before `state.history = []` is reached, leaving the history in place. -/
def clear (s : State) (logWrite : Except String Unit) :
    Option String × State :=
  if s.thinking then (none, s)
  else if s.history.isEmpty then (none, { s with history := [] })
  else
    match logWrite with
    | .ok _ => (none, { s with history := [] })
    | .error e => (some e, s)

/-- Modelled from the spec's words for the refinement claim about preamble
front-loading: the expansions of the directive lines of the raw prompt, in
encounter order, each produced independently of the others (`/code` and
`/commit` contribute no context block). -/
def directive_blocks (env : Env) : List String → Except String (List String)
  | [] => .ok []
  | line :: rest =>
    if startsWith line "@" then
      (if startsWith line "@buffer" then attach_buffer env []
       else if startsWith line "@files" then attach_files env [] line
       else if startsWith line "@git" then attach_git env [] line
       else .error ("Invalid @ directive: " ++ line)).bind
      fun b => (directive_blocks env rest).map (fun bs => b ++ bs)
    else if startsWith line "/" then
      if startsWith line "/code" then directive_blocks env rest
      else if startsWith line "/commit" then directive_blocks env rest
      else .error ("Invalid / directive: " ++ line)
    else directive_blocks env rest

/-- Modelled from the spec's words for the refinement claim about preamble
front-loading: the literal body lines of the raw prompt in original order —
non-directive lines pass through verbatim, `/commit` expands to its fixed
template, every other directive line contributes nothing to the body. -/
def body_lines : List String → List String
  | [] => []
  | line :: rest =>
    if startsWith line "@" then body_lines rest
    else if startsWith line "/" then
      (if startsWith line "/code" then []
       else if startsWith line "/commit" then commit_prompt_lines
       else []) ++ body_lines rest
    else line :: body_lines rest

/-! Concrete environments used by witnesses and counterexamples. -/

/-- An environment with no visible buffer and every external command
failing: enough for prompts whose directives are never reached or fail. -/
def env0 : Env :=
  ⟨[], fun _ => [], fun _ => false, fun _ => none, none, none, fun _ => none⟩

/-- An environment whose only visible buffer has the given lines. -/
def envBuf (b : List String) : Env :=
  ⟨[b], fun _ => [], fun _ => false, fun _ => none, none, none, fun _ => none⟩

/-! Helper lemmas. -/

theorem modifyLast_concat {α : Type} (f : α → α) (l : List α) (a : α) :
    modifyLast f (l ++ [a]) = l ++ [f a] := by
  simp [modifyLast, List.getLast?_concat, List.dropLast_concat]

theorem getLast?_decomp {α : Type} {l : List α} {a : α}
    (h : l.getLast? = some a) : l = l.dropLast ++ [a] :=
  Eq.symm (List.dropLast_append_getLast? a h)

theorem foldl_string_append (l : List String) :
    ∀ r : String, l.foldl (· ++ ·) r = r ++ l.foldl (· ++ ·) "" := by
  induction l with
  | nil => intro r; simp [String.append_empty]
  | cons x xs ih =>
    intro r
    simp only [List.foldl_cons]
    rw [ih (r ++ x), ih ("" ++ x), String.empty_append, String.append_assoc]

theorem render_history_concat (h : List Entry) (e : Entry) :
    render_history (h ++ [e]) = render_history h ++ render_entry e := by
  simp [render_history, List.foldl_append]

/-! ### C5 — start-turn atomicity on composition failure -/

/-- C5: if directive composition of the (stripped) raw prompt fails, then
`ask_finish` raises that error with the session left exactly as it was — no
entry appended, `thinking` not set, and no response thread dispatched. -/
theorem c5_start_turn_atomic (env : Env) (s : State) (bufLines : List String)
    (e : String)
    (h : compose_prompt env (strip (String.intercalate "\n" bufLines)) =
      .error e) :
    ask_finish env s bufLines = ⟨some e, s, none⟩ := by
  simp only [ask_finish, h]

theorem c5_start_turn_atomic_witness :
    compose_prompt env0 (strip (String.intercalate "\n" ["@foo"])) =
      .error "Invalid @ directive: @foo" ∧
    ask_finish env0 ⟨[], false⟩ ["@foo"] =
      ⟨some "Invalid @ directive: @foo", ⟨[], false⟩, none⟩ :=
  ⟨rfl, c5_start_turn_atomic env0 ⟨[], false⟩ ["@foo"] _ rfl⟩

/-! ### C10 — regenerate atomicity on recomposition failure -/

/-- C10: if `regenerate_last` is invoked while not thinking on a non-empty
history and recomposition of the last entry's raw text fails, the error
propagates with the session unchanged — no response variant appended,
`thinking` still false, nothing dispatched. -/
theorem c10_regenerate_atomic (env : Env) (s : State) (en : Entry)
    (e : String)
    (h1 : s.thinking = false) (h2 : s.history.getLast? = some en)
    (h3 : compose_prompt env en.prompt_raw = .error e) :
    regenerate_last env s = ⟨some e, s, none⟩ := by
  simp only [regenerate_last, h1, h2, h3, Bool.false_eq_true, if_false]

theorem c10_regenerate_atomic_witness :
    (State.mk [⟨"@foo", "x", ["r"]⟩] false).thinking = false ∧
    (State.mk [⟨"@foo", "x", ["r"]⟩] false).history.getLast? =
      some ⟨"@foo", "x", ["r"]⟩ ∧
    compose_prompt env0 "@foo" = .error "Invalid @ directive: @foo" ∧
    regenerate_last env0 (State.mk [⟨"@foo", "x", ["r"]⟩] false) =
      ⟨some "Invalid @ directive: @foo",
       State.mk [⟨"@foo", "x", ["r"]⟩] false, none⟩ :=
  ⟨rfl, rfl, rfl,
   c10_regenerate_atomic env0 _ ⟨"@foo", "x", ["r"]⟩ _ rfl rfl rfl⟩

theorem foldl_update (frags : List String) :
    ∀ (h : List Entry) (pr p : String) (rs : List String) (r : String)
      (t : Bool),
    frags.foldl update_response ⟨h ++ [⟨pr, p, rs ++ [r]⟩], t⟩ =
      ⟨h ++ [⟨pr, p, rs ++ [r ++ frags.foldl (· ++ ·) ""]⟩], t⟩ := by
  induction frags with
  | nil => intro h pr p rs r t; simp [String.append_empty]
  | cons f fs ih =>
    intro h pr p rs r t
    have step : update_response ⟨h ++ [⟨pr, p, rs ++ [r]⟩], t⟩ f =
        ⟨h ++ [⟨pr, p, rs ++ [r ++ f]⟩], t⟩ := by
      simp [update_response, modifyLast_concat]
    simp only [List.foldl_cons, step, ih]
    rw [foldl_string_append fs ("" ++ f), String.empty_append,
      String.append_assoc]

/-! ### C1 — chunk-invariance of response accumulation -/

/-- C1: replaying any decomposition of a response string `S` into non-empty
fragments through `update_response`, starting from a newly created entry
whose single response variant is empty, yields latest response variant `S`,
and the rendered transcript is the previous entries' rendering followed by
the entry's block whose response section is exactly `S` split on newlines —
the same final result for every chunking of `S`. -/
theorem c1_chunk_invariance (S : String) (frags : List String)
    (h : List Entry) (en : Entry) (t : Bool)
    (hfrag : ∀ f ∈ frags, f ≠ "") (hS : String.join frags = S)
    (hen : en.responses = [""]) :
    latestResponse (frags.foldl update_response ⟨h ++ [en], t⟩) = some S ∧
    render_history (frags.foldl update_response ⟨h ++ [en], t⟩).history =
      render_history h ++
      ["#### User " ++ dashes 65, ""] ++ splitLines en.prompt_raw ++ [""] ++
      ["#### Vimtermute " ++ dashes 59, ""] ++ splitLines S ++ [""] := by
  obtain ⟨pr, p, rs⟩ := en
  simp only at hen
  subst hen
  have hj : frags.foldl (· ++ ·) "" = S := by rw [← hS]; rfl
  have hfold := foldl_update frags h pr p [] "" t
  rw [List.nil_append, String.empty_append, hj] at hfold
  rw [hfold]
  constructor
  · simp [latestResponse, List.getLast?_concat]
  · rw [render_history_concat]
    simp [render_entry, List.append_assoc]

theorem c1_chunk_invariance_witness :
    latestResponse ((["ab\n", "c", "d"] : List String).foldl update_response
      ⟨[⟨"q", "q", [""]⟩], true⟩) = some "ab\ncd" :=
  (c1_chunk_invariance "ab\ncd" ["ab\n", "c", "d"] [] ⟨"q", "q", [""]⟩ true
    (by decide) rfl rfl).1

/-! ### C7 — busy always cleared, partial output preserved -/

/-- C7: whatever prefix of the fragment stream was delivered before the
stream completed or raised, after the `finally`-guarded `finalize` the
`thinking` flag is false and the latest response variant holds everything
accumulated — nothing is rolled back. -/
theorem c7_busy_cleared (h : List Entry) (pr p : String) (rs : List String)
    (r : String) (t : Bool) (delivered : List String) :
    (response_thread_run ⟨h ++ [⟨pr, p, rs ++ [r]⟩], t⟩ delivered).thinking =
      false ∧
    latestResponse
        (response_thread_run ⟨h ++ [⟨pr, p, rs ++ [r]⟩], t⟩ delivered) =
      some (r ++ String.join delivered) := by
  have hfold := foldl_update delivered h pr p rs r t
  unfold response_thread_run
  rw [hfold]
  constructor
  · rfl
  · simp [finalize, latestResponse, List.getLast?_concat]
    rfl

/-! ### C2 — regeneration does NOT reuse the stored composed prompt -/

/-- The session after a turn created from the raw prompt `@buffer` while the
visible buffer contained the line `a`, whose response stream delivered
`resp` and completed. -/
def c2_state : State :=
  response_thread_run
    (ask_finish (envBuf ["a"]) ⟨[], false⟩ ["@buffer"]).state ["resp"]

/-- C2 counterexample: with the visible buffer now containing `b` instead of
`a`, `regenerate_last` dispatches a prompt different from the entry's stored
`prompt` computed at creation time — regeneration re-runs directive
expansion instead of reusing the stored composed prompt. -/
theorem c2_counterexample :
    (regenerate_last (envBuf ["b"]) c2_state).dispatched.map
        Dispatch.prompt ≠
      (c2_state.history.getLast?).map Entry.prompt ∧
    ((regenerate_last (envBuf ["b"]) c2_state).dispatched.map
        Dispatch.prompt) =
      some "Here is the content of the current buffer:\n\n```\nb\n```\n" ∧
    (c2_state.history.getLast?).map Entry.prompt =
      some "Here is the content of the current buffer:\n\n```\na\n```\n" := by
  refine ⟨?_, rfl, rfl⟩
  decide

/-- C2 amended: `regenerate_last` re-runs `compose_prompt` on the last
entry's `prompt_raw` against the current environment and dispatches the
freshly composed prompt and system instruction (the stored `prompt` is not
consulted and no system instruction is stored at all); it appends one new
empty response variant and sets `thinking`. -/
theorem c2_regenerate_recomposes (env : Env) (s : State) (en : Entry)
    (p : String) (sys : Option String)
    (h1 : s.thinking = false) (h2 : s.history.getLast? = some en)
    (h3 : compose_prompt env en.prompt_raw = .ok (p, sys)) :
    regenerate_last env s =
      ⟨none,
       ⟨modifyLast (fun e => { e with responses := e.responses ++ [""] })
          s.history, true⟩,
       some ⟨sys, p⟩⟩ := by
  simp only [regenerate_last, h1, h2, h3, Bool.false_eq_true, if_false]

theorem c2_regenerate_recomposes_witness :
    regenerate_last (envBuf ["b"]) c2_state =
      ⟨none,
       ⟨modifyLast (fun e => { e with responses := e.responses ++ [""] })
          c2_state.history, true⟩,
       some ⟨none,
         "Here is the content of the current buffer:\n\n```\nb\n```\n"⟩⟩ :=
  c2_regenerate_recomposes (envBuf ["b"]) c2_state
    ⟨"@buffer",
     "Here is the content of the current buffer:\n\n```\na\n```\n",
     ["resp"]⟩
    "Here is the content of the current buffer:\n\n```\nb\n```\n" none
    rfl rfl rfl

/-! ### C3 — empty `git ls-files` output does not fail NoFilesMatched -/

/-- An environment where `git ls-files` succeeds with empty output and no
path is a regular file. -/
def envLs : Env :=
  ⟨[], fun _ => [], fun _ => false, fun _ => none, none, none,
   fun _ => some ""⟩

/-- C3: evaluating the code at the failing input.  When `git ls-files`
succeeds with empty output, `"".strip().split("\n")` is `[""]`, so the
emptiness check never fires: `attach_git` returns successfully having
appended no block (the lone empty path is skipped by the `isfile` test),
and the whole composition succeeds — it does not fail `NoFilesMatched` as
the claim (and the dead `raise` in the source) intends. -/
theorem c3_git_files_empty_no_error :
    attach_git envLs [] "@git files foo" = .ok [] ∧
    splitLines (strip "") = [""] ∧
    compose_prompt envLs "@git files foo" = .ok ("", none) :=
  ⟨rfl, rfl, rfl⟩

/-! ### C4 — archive write failure blocks clearing -/

/-- A non-empty, non-busy session used to exhibit the C4 counterexample. -/
def c4_state : State := ⟨[⟨"hi", "hi", ["r"]⟩], false⟩

/-- C4 counterexample: when writing the log fails, `clear` propagates the
exception and the in-memory history is NOT reset — contradicting the claim
that the failure would not block clearing. -/
theorem c4_counterexample :
    clear c4_state (.error "disk full") = (some "disk full", c4_state) ∧
    c4_state.history ≠ [] := by
  refine ⟨rfl, ?_⟩
  decide

/-- C4 amended: for a non-empty history with `thinking` false, a failing log
write makes `clear` propagate the error with the history left unchanged —
the write failure does block clearing (history is reset only when the
archive write succeeds). -/
theorem c4_clear_blocked_on_write_failure (s : State) (e : String)
    (h1 : s.thinking = false) (h2 : s.history ≠ []) :
    clear s (.error e) = (some e, s) := by
  have h3 : s.history.isEmpty = false := by
    simpa [List.isEmpty_iff] using h2
  simp [clear, h1, h3]

theorem c4_clear_blocked_on_write_failure_witness :
    clear c4_state (.error "disk full") = (some "disk full", c4_state) :=
  c4_clear_blocked_on_write_failure c4_state "disk full" rfl (by decide)

/-! ### C8 — the responses sequence of an entry is never empty -/

/-- The spec's invariant: every entry in the history has at least one
response variant. -/
def responsesNonEmpty (s : State) : Prop :=
  ∀ e ∈ s.history, e.responses ≠ []

theorem mem_modifyLast {α : Type} {f : α → α} {l : List α} {a : α}
    (h : a ∈ modifyLast f l) : a ∈ l ∨ ∃ b ∈ l, a = f b := by
  unfold modifyLast at h
  cases hl : l.getLast? with
  | none => rw [hl] at h; simp at h
  | some x =>
    rw [hl] at h
    rcases List.mem_append.1 h with h1 | h1
    · exact Or.inl ((List.dropLast_sublist l).subset h1)
    · simp only [List.mem_singleton] at h1
      subst h1
      refine Or.inr ⟨x, ?_, rfl⟩
      rw [getLast?_decomp hl]
      simp

theorem responsesNonEmpty_update (s : State) (part : String)
    (hs : responsesNonEmpty s) :
    responsesNonEmpty (update_response s part) := by
  intro e he
  simp only [update_response] at he
  rcases mem_modifyLast he with h1 | ⟨b, hb, rfl⟩
  · exact hs e h1
  · have hbne := hs b hb
    simp only
    unfold modifyLast
    cases hl : b.responses.getLast? with
    | none => exact absurd (List.getLast?_eq_none_iff.1 hl) hbne
    | some x => simp

theorem responsesNonEmpty_fold (frags : List String) :
    ∀ s : State, responsesNonEmpty s →
      responsesNonEmpty (frags.foldl update_response s) := by
  induction frags with
  | nil => intro s hs; exact hs
  | cons f fs ih =>
    intro s hs
    exact ih (update_response s f) (responsesNonEmpty_update s f hs)

/-- C8: the non-empty-responses invariant is preserved by every session
operation — `ask_finish` creates entries with one (empty) variant,
`regenerate_last` only appends a variant, streaming updates rewrite the
last variant in place, `finalize` leaves the history alone, and `clear`
only ever resets the history to empty. -/
theorem c8_responses_nonempty (env : Env) (s : State)
    (bufLines : List String) (frags : List String)
    (lw : Except String Unit)
    (hs : responsesNonEmpty s) :
    responsesNonEmpty (ask_finish env s bufLines).state ∧
    responsesNonEmpty (regenerate_last env s).state ∧
    responsesNonEmpty (frags.foldl update_response s) ∧
    responsesNonEmpty (finalize s) ∧
    responsesNonEmpty (clear s lw).2 := by
  refine ⟨?_, ?_, responsesNonEmpty_fold frags s hs, hs, ?_⟩
  · simp only [ask_finish]
    split
    · exact hs
    · split
      · exact hs
      · intro e he
        rcases List.mem_append.1 he with h1 | h1
        · exact hs e h1
        · simp only [List.mem_singleton] at h1
          subst h1
          simp
  · simp only [regenerate_last]
    split
    · exact hs
    · split
      · exact hs
      · split
        · exact hs
        · intro e he
          simp only at he
          rcases mem_modifyLast he with h1 | ⟨b, hb, rfl⟩
          · exact hs e h1
          · simp
  · simp only [clear]
    split
    · exact hs
    · split
      · intro e hmem
        simp at hmem
      · split
        · intro e hmem
          simp at hmem
        · exact hs

theorem c8_responses_nonempty_witness :
    responsesNonEmpty
      (ask_finish env0 ⟨[⟨"hi", "hi", ["r"]⟩], false⟩ ["hello"]).state :=
  (c8_responses_nonempty env0 ⟨[⟨"hi", "hi", ["r"]⟩], false⟩ ["hello"] []
    (.ok ()) (by unfold responsesNonEmpty; decide)).1

/-! ### C9 — directive recognition is by prefix -/

theorem startsWith_of_startsWith {l p q : String}
    (hpq : q.data <+: p.data) (h : startsWith l p = true) :
    startsWith l q = true := by
  unfold startsWith at *
  rw [ List.isPrefixOf_iff_prefix] at h ⊢
  exact hpq.trans h

theorem not_startsWith_of_not_le {l p q : String}
    (hlen : q.data.length ≤ p.data.length) (hnq : ¬ q.data <+: p.data)
    (h : startsWith l p = true) : startsWith l q = false := by
  cases hcase : startsWith l q with
  | false => rfl
  | true =>
    exfalso
    unfold startsWith at h hcase
    rw [ List.isPrefixOf_iff_prefix] at h hcase
    exact hnq (List.prefix_of_prefix_length_le hcase h hlen)

theorem splitOnChar_of_not_mem {c : Char} {cs : List Char} (h : c ∉ cs) :
    splitOnChar c cs = [cs] := by
  induction cs with
  | nil => rfl
  | cons x xs ih =>
    simp only [List.mem_cons, not_or] at h
    obtain ⟨hx, hxs⟩ := h
    simp only [splitOnChar]
    rw [ih hxs, if_neg (fun hh : x = c => hx hh.symm)]

theorem splitLines_single {l : String} (h : ('\n') ∉ l.data) :
    splitLines l = [l] := by
  unfold splitLines
  rw [splitOnChar_of_not_mem h]
  rfl

/-- C9: any newline-free line that merely begins with `@buffer`, `/code` or
`/commit` — with arbitrary trailing characters and no separator — is
recognised and expanded as that directive by `compose_prompt` rather than
rejected as an invalid directive, because the source tests
`line.startswith(...)` prefixes. -/
theorem c9_prefix_directives (env : Env) (l : String) (b : List String)
    (hl : ('\n') ∉ l.data) :
    (startsWith l "@buffer" = true → env.buffers = [b] →
      compose_prompt env l =
        .ok (String.intercalate "\n"
          (["Here is the content of the current buffer:", "", "```"] ++ b ++
           ["```", ""]), none)) ∧
    (startsWith l "/code" = true →
      compose_prompt env l =
        .ok ("", some (String.intercalate "\n" code_system_lines))) ∧
    (startsWith l "/commit" = true →
      compose_prompt env l =
        .ok (String.intercalate "\n" commit_prompt_lines,
             some "You are an AI programming assistant.")) := by
  refine ⟨fun h hb => ?_, fun h => ?_, fun h => ?_⟩
  · have h1 : startsWith l "@" = true :=
      startsWith_of_startsWith (by decide) h
    simp only [compose_prompt, splitLines_single hl, composeLines, h1, h,
      if_true, attach_buffer, hb]
    simp
  · have h1 : startsWith l "@" = false :=
      not_startsWith_of_not_le (by decide) (by decide) h
    have h2 : startsWith l "/" = true :=
      startsWith_of_startsWith (by decide) h
    simp only [compose_prompt, splitLines_single hl, composeLines, h1, h2, h,
      Bool.false_eq_true, if_false, if_true]
    simp only [List.nil_append, List.append_nil]
    have hne : code_system_lines.isEmpty = false := by decide
    simp only [hne, Bool.false_eq_true, if_false]
    rfl
  · have h1 : startsWith l "@" = false :=
      not_startsWith_of_not_le (by decide) (by decide) h
    have h2 : startsWith l "/" = true :=
      startsWith_of_startsWith (by decide) h
    have h3 : startsWith l "/code" = false :=
      not_startsWith_of_not_le (by decide) (by decide) h
    simp only [compose_prompt, splitLines_single hl, composeLines, h1, h2,
      h3, h, Bool.false_eq_true, if_false, if_true]
    simp only [List.nil_append, List.append_nil]
    rfl

theorem c9_prefix_directives_witness :
    compose_prompt (envBuf ["z"]) "@bufferX" =
      .ok ("Here is the content of the current buffer:\n\n```\nz\n```\n",
           none) ∧
    compose_prompt env0 "/codefix" =
      .ok ("", some (String.intercalate "\n" code_system_lines)) ∧
    compose_prompt env0 "/commitX" =
      .ok (String.intercalate "\n" commit_prompt_lines,
           some "You are an AI programming assistant.") :=
  ⟨(c9_prefix_directives (envBuf ["z"]) "@bufferX" ["z"] (by decide)).1
      (by decide) rfl,
   (c9_prefix_directives env0 "/codefix" [] (by decide)).2.1 (by decide),
   (c9_prefix_directives env0 "/commitX" [] (by decide)).2.2 (by decide)⟩

/-! ### C6 — preamble front-loading -/

theorem read_blocks_append (env : Env) (files : List String) :
    ∀ pre acc : List String,
      read_blocks env files (pre ++ acc) =
        (read_blocks env files acc).map (fun b => pre ++ b) := by
  induction files with
  | nil => intro pre acc; rfl
  | cons f fs ih =>
    intro pre acc
    simp only [read_blocks]
    cases env.readFile f with
    | none => rfl
    | some content =>
      dsimp only
      rw [List.append_assoc]
      exact ih pre _

theorem read_blocks_append0 (env : Env) (files pre : List String) :
    read_blocks env files pre =
      (read_blocks env files []).map (fun b => pre ++ b) := by
  have h := read_blocks_append env files pre []
  rwa [List.append_nil] at h

theorem git_read_blocks_append (env : Env) (files : List String) :
    ∀ pre acc : List String,
      git_read_blocks env files (pre ++ acc) =
        (git_read_blocks env files acc).map (fun b => pre ++ b) := by
  induction files with
  | nil => intro pre acc; rfl
  | cons f fs ih =>
    intro pre acc
    simp only [git_read_blocks]
    by_cases hf : env.isfile f
    · simp only [hf, Bool.not_true, Bool.false_eq_true, if_false]
      cases env.readFile f with
      | none => rfl
      | some content =>
        dsimp only
        rw [List.append_assoc]
        exact ih pre _
    · simp only [Bool.eq_false_iff.2 hf, Bool.not_false, if_true]
      exact ih pre acc

theorem git_read_blocks_append0 (env : Env) (files pre : List String) :
    git_read_blocks env files pre =
      (git_read_blocks env files []).map (fun b => pre ++ b) := by
  have h := git_read_blocks_append env files pre []
  rwa [List.append_nil] at h

theorem attach_buffer_append (env : Env) (pre : List String) :
    attach_buffer env pre =
      (attach_buffer env []).map (fun b => pre ++ b) := by
  unfold attach_buffer
  cases env.buffers with
  | nil => rfl
  | cons b rest =>
    cases rest with
    | nil => simp [Except.map, List.append_assoc]
    | cons c cs => rfl

theorem attach_files_append (env : Env) (pre : List String) (line : String) :
    attach_files env pre line =
      (attach_files env [] line).map (fun b => pre ++ b) := by
  simp only [attach_files]
  by_cases hcond :
      ((env.glob
        (if strip (String.mk (line.data.drop 6)) = "" then "**/*"
         else strip (String.mk (line.data.drop 6)))).filter
        env.isfile).isEmpty
  · simp only [hcond, if_true]
    rfl
  · simp only [hcond, Bool.false_eq_true, if_false]
    exact read_blocks_append0 env _ pre

theorem attach_git_append (env : Env) (pre : List String) (line : String) :
    attach_git env pre line =
      (attach_git env [] line).map (fun b => pre ++ b) := by
  unfold attach_git
  by_cases h1 : gitMatches "diff" line = true
  · simp only [h1, if_true]
    cases env.gitDiff with
    | none => rfl
    | some out =>
      dsimp only
      by_cases hd : strip out ≠ ""
      · rw [if_pos hd, if_pos hd]
        simp [Except.map]
      · rw [if_neg hd, if_neg hd]
        rfl
  · simp only [Bool.eq_false_iff.2 h1, Bool.false_eq_true, if_false]
    by_cases h2 : gitMatches "staged" line = true
    · simp only [h2, if_true]
      cases env.gitStaged with
      | none => rfl
      | some out =>
        dsimp only
        by_cases hd : strip out ≠ ""
        · rw [if_pos hd, if_pos hd]
          simp [Except.map]
        · rw [if_neg hd, if_neg hd]
          rfl
    · simp only [Bool.eq_false_iff.2 h2, Bool.false_eq_true, if_false]
      by_cases h3 : gitMatches "files" line = true
      · simp only [h3, if_true]
        cases env.gitLsFiles
            (if gitFilesPattern line = "" then "**/*"
             else gitFilesPattern line) with
        | none => rfl
        | some out =>
          by_cases hcond : (splitLines (strip out)).isEmpty
          · simp only [hcond, if_true]
            rfl
          · simp only [hcond, Bool.false_eq_true, if_false]
            exact git_read_blocks_append0 env _ pre
      · simp only [Bool.eq_false_iff.2 h3, Bool.false_eq_true, if_false]
        rfl

theorem commit_lines_not_directive :
    ∀ l ∈ commit_prompt_lines,
      startsWith l "@" = false ∧ startsWith l "/" = false := by decide

theorem composeLines_front_loads (env : Env) :
    ∀ (lines syst pr pre : List String)
      (res : List String × List String × List String),
      composeLines env lines syst pr pre = .ok res →
      ∃ blocks, directive_blocks env lines = .ok blocks ∧
        res.2.2 = pre ++ blocks ∧
        res.2.1 = pr ++ body_lines lines ∧
        (∀ l ∈ body_lines lines,
          startsWith l "@" = false ∧ startsWith l "/" = false) := by
  intro lines
  induction lines with
  | nil =>
    intro syst pr pre res h
    simp only [composeLines] at h
    injection h with h2
    subst h2
    exact ⟨[], rfl, by simp, by simp [body_lines], by simp [body_lines]⟩
  | cons line rest ih =>
    intro syst pr pre res h
    simp only [composeLines] at h
    by_cases h1 : startsWith line "@" = true
    · rw [if_pos h1] at h
      by_cases h2 : startsWith line "@buffer" = true
      · rw [if_pos h2] at h
        cases hab : attach_buffer env pre with
        | error e => rw [hab] at h; exact Except.noConfusion h
        | ok pre2 =>
          rw [hab] at h
          dsimp only at h
          have happ := attach_buffer_append env pre
          rw [hab] at happ
          cases hab0 : attach_buffer env [] with
          | error e => rw [hab0] at happ; exact Except.noConfusion happ
          | ok b0 =>
            rw [hab0] at happ
            have hpre2 : pre2 = pre ++ b0 := by
              simpa [Except.map] using happ
            obtain ⟨blocks, hdb, hpre, hpr, hbody⟩ := ih syst pr pre2 res h
            refine ⟨b0 ++ blocks, ?_, ?_, ?_, ?_⟩
            · simp only [directive_blocks, h1, h2, if_true, hab0]
              rw [hdb]
              rfl
            · rw [hpre, hpre2, List.append_assoc]
            · rw [hpr]
              congr 1
              simp [body_lines, h1]
            · intro l hl
              apply hbody
              simpa [body_lines, h1] using hl
      · rw [if_neg h2] at h
        by_cases h3 : startsWith line "@files" = true
        · rw [if_pos h3] at h
          cases hab : attach_files env pre line with
          | error e => rw [hab] at h; exact Except.noConfusion h
          | ok pre2 =>
            rw [hab] at h
            dsimp only at h
            have happ := attach_files_append env pre line
            rw [hab] at happ
            cases hab0 : attach_files env [] line with
            | error e => rw [hab0] at happ; exact Except.noConfusion happ
            | ok b0 =>
              rw [hab0] at happ
              have hpre2 : pre2 = pre ++ b0 := by
                simpa [Except.map] using happ
              obtain ⟨blocks, hdb, hpre, hpr, hbody⟩ := ih syst pr pre2 res h
              refine ⟨b0 ++ blocks, ?_, ?_, ?_, ?_⟩
              · simp only [directive_blocks, h1, h2, h3,
                  Bool.false_eq_true, if_false, if_true, hab0]
                rw [hdb]
                rfl
              · rw [hpre, hpre2, List.append_assoc]
              · rw [hpr]
                congr 1
                simp [body_lines, h1]
              · intro l hl
                apply hbody
                simpa [body_lines, h1] using hl
        · rw [if_neg h3] at h
          by_cases h4 : startsWith line "@git" = true
          · rw [if_pos h4] at h
            cases hab : attach_git env pre line with
            | error e => rw [hab] at h; exact Except.noConfusion h
            | ok pre2 =>
              rw [hab] at h
              dsimp only at h
              have happ := attach_git_append env pre line
              rw [hab] at happ
              cases hab0 : attach_git env [] line with
              | error e => rw [hab0] at happ; exact Except.noConfusion happ
              | ok b0 =>
                rw [hab0] at happ
                have hpre2 : pre2 = pre ++ b0 := by
                  simpa [Except.map] using happ
                obtain ⟨blocks, hdb, hpre, hpr, hbody⟩ := ih syst pr pre2 res h
                refine ⟨b0 ++ blocks, ?_, ?_, ?_, ?_⟩
                · simp only [directive_blocks, h1, h2, h3, h4,
                    Bool.false_eq_true, if_false, if_true, hab0]
                  rw [hdb]
                  rfl
                · rw [hpre, hpre2, List.append_assoc]
                · rw [hpr]
                  congr 1
                  simp [body_lines, h1]
                · intro l hl
                  apply hbody
                  simpa [body_lines, h1] using hl
          · rw [if_neg h4] at h
            exact Except.noConfusion h
    · rw [if_neg h1] at h
      by_cases h2 : startsWith line "/" = true
      · rw [if_pos h2] at h
        by_cases h3 : startsWith line "/code" = true
        · rw [if_pos h3] at h
          obtain ⟨blocks, hdb, hpre, hpr, hbody⟩ :=
            ih (syst ++ code_system_lines) pr pre res h
          refine ⟨blocks, ?_, hpre, ?_, ?_⟩
          · simp only [directive_blocks, h1, h2, h3, Bool.false_eq_true,
              if_false, if_true]
            exact hdb
          · rw [hpr]
            congr 1
            simp [body_lines, h1, h2, h3]
          · intro l hl
            apply hbody
            simpa [body_lines, h1, h2, h3] using hl
        · rw [if_neg h3] at h
          by_cases h4 : startsWith line "/commit" = true
          · rw [if_pos h4] at h
            obtain ⟨blocks, hdb, hpre, hpr, hbody⟩ :=
              ih (syst ++ ["You are an AI programming assistant."])
                (pr ++ commit_prompt_lines) pre res h
            refine ⟨blocks, ?_, hpre, ?_, ?_⟩
            · simp only [directive_blocks, h1, h2, h3, h4,
                Bool.false_eq_true, if_false, if_true]
              exact hdb
            · rw [hpr, List.append_assoc]
              congr 1
              simp [body_lines, h1, h2, h3, h4]
            · intro l hl
              have hl2 : l ∈ commit_prompt_lines ++ body_lines rest := by
                simpa [body_lines, h1, h2, h3, h4] using hl
              rcases List.mem_append.1 hl2 with hc | hr
              · exact commit_lines_not_directive l hc
              · exact hbody l hr
          · rw [if_neg h4] at h
            exact Except.noConfusion h
      · rw [if_neg h2] at h
        obtain ⟨blocks, hdb, hpre, hpr, hbody⟩ :=
          ih syst (pr ++ [line]) pre res h
        refine ⟨blocks, ?_, hpre, ?_, ?_⟩
        · simp only [directive_blocks, h1, h2, Bool.false_eq_true, if_false]
          exact hdb
        · rw [hpr, List.append_assoc]
          congr 1
          simp [body_lines, h1, h2]
        · intro l hl
          have hl2 : l ∈ line :: body_lines rest := by
            simpa [body_lines, h1, h2] using hl
          rcases List.mem_cons.1 hl2 with rfl | hr
          · exact ⟨Bool.eq_false_iff.2 h1, Bool.eq_false_iff.2 h2⟩
          · exact hbody l hr

/-- C6: on every successfully composed prompt, the composed text is the
newline-join of all directive expansions in encounter order
(`directive_blocks`) followed by all literal body lines in original order
(`body_lines`, with `/commit` contributing its fixed template), however the
directive and prose lines were interleaved; no line of the body is a
directive line (none starts with `@` or `/` — the raw directive lines are
consumed). -/
theorem c6_preamble_front_loading (env : Env) (raw p : String)
    (sys : Option String)
    (h : compose_prompt env raw = .ok (p, sys)) :
    ∃ blocks, directive_blocks env (splitLines raw) = .ok blocks ∧
      p = String.intercalate "\n" (blocks ++ body_lines (splitLines raw)) ∧
      ∀ l ∈ body_lines (splitLines raw),
        startsWith l "@" = false ∧ startsWith l "/" = false := by
  unfold compose_prompt at h
  cases hc : composeLines env (splitLines raw) [] [] [] with
  | error e => rw [hc] at h; exact Except.noConfusion h
  | ok res =>
    rw [hc] at h
    obtain ⟨syst, pr, pre⟩ := res
    dsimp only at h
    injection h with h2
    have hp : String.intercalate "\n" (pre ++ pr) = p :=
      congrArg Prod.fst h2
    obtain ⟨blocks, hdb, hpre, hpr, hbody⟩ :=
      composeLines_front_loads env (splitLines raw) [] [] [] _ hc
    dsimp only at hpre hpr
    refine ⟨blocks, hdb, ?_, hbody⟩
    rw [← hp, hpre, hpr]
    simp

theorem c6_preamble_front_loading_witness :
    compose_prompt (envBuf ["B"]) "hello\n@buffer\nworld" =
      .ok ("Here is the content of the current buffer:\n\n```\nB\n```\n\nhello\nworld",
           none) ∧
    (∃ blocks,
      directive_blocks (envBuf ["B"])
          (splitLines "hello\n@buffer\nworld") = .ok blocks ∧
      "Here is the content of the current buffer:\n\n```\nB\n```\n\nhello\nworld" =
        String.intercalate "\n"
          (blocks ++ body_lines (splitLines "hello\n@buffer\nworld")) ∧
      ∀ l ∈ body_lines (splitLines "hello\n@buffer\nworld"),
        startsWith l "@" = false ∧ startsWith l "/" = false) :=
  ⟨rfl,
   c6_preamble_front_loading (envBuf ["B"]) "hello\n@buffer\nworld" _ none
     rfl⟩

end Vimtermute
